import Mathlib

/-!
Verification of the patient-tracking application's data-encoding and
workflow logic (`src/app.py`): a shallow embedding in Lean 4 of the
pure business rules — BMI and pack-years derivation, age from birth
date, the JSON list-value encoding, lung-cancer screening eligibility,
and the review / control-reminder workflow transitions — together with
theorems settling the specification's testable properties.

Modelling conventions:
- Python `float` values are modelled as exact rationals (`ℚ`); `round(x, 2)`
  is modelled as decimal round-half-to-even on the rational value.
- Python `int` is `ℤ`, `None` is `Option.none`.
- Python truthiness is modelled explicitly at each use site
  (`None`, `0`, `""` and `[]` are falsy).
- Database rows are structures; functions that mutate a row return the
  updated row (together with a Bool success flag where a route can reject).
- Calls into the Python standard library (`json.dumps` / `json.loads`,
  `datetime.strptime`, `str`/`int` conversions) are modelled by executable
  Lean functions mirroring their documented behaviour on the value domains
  the application uses; deviations are noted at each definition.
-/

namespace ComiteTorax

/-! ## Numeric helpers: Python `round(x, 2)` on rationals -/

/-- Python `round` to the nearest integer, ties to even (banker's rounding). -/
def pyRoundHalfEven (x : ℚ) : ℤ :=
  let f := ⌊x⌋
  let r := x - (f : ℚ)
  if r < 1/2 then f
  else if 1/2 < r then f + 1
  else if f % 2 = 0 then f else f + 1

/-- Python `round(x, 2)`: round to two decimal places, ties to even.
Models the source's `round(value, 2)` on the exact rational value. -/
def round2 (x : ℚ) : ℚ := (pyRoundHalfEven (x * 100) : ℚ) / 100

/-! ## `_compute_bmi` (src/app.py:608-614) -/

/-- Model of `_compute_bmi(weight_kg, height_cm)`.  Python truthiness:
`if not weight_kg or not height_cm: return None` — `None` and `0` are falsy. -/
def _compute_bmi (weight_kg height_cm : Option ℚ) : Option ℚ :=
  match weight_kg, height_cm with
  | some w, some h =>
    if w = 0 ∨ h = 0 then none
    else
      let height_m := h / 100
      if height_m ≤ 0 then none
      else some (round2 (w / height_m ^ 2))
  | _, _ => none

/-! ## Smoking section of `populate_patient_from_form` (src/app.py:808-829) -/

/-- The smoking-related form inputs after Python's lenient parsing:
`_checkbox_to_bool` results for the flags, `_to_int` for cigarettes/day,
`_to_float` for years and for the explicit pack-years field. -/
structure SmokingForm where
  smoking_never : Bool
  smoking_current : Bool
  smoking_previous : Bool
  smoking_cigarettes_per_day : Option ℤ
  smoking_years : Option ℚ
  smoking_pack_years : Option ℚ

/-- The smoking fields stored on the Patient row by the form mapper. -/
structure SmokingState where
  smoking_current : Bool
  smoking_previous : Bool
  smoking_pack_years : Option ℚ
  smoking_years : Option ℚ
  smoking_cigarettes_per_day : Option ℤ
deriving DecidableEq, Repr

/-- Model of the smoking block of `populate_patient_from_form`.  Note the
guard `if patient.smoking_cigarettes_per_day and patient.smoking_years:` uses
Python truthiness, so a stored value of `0` in either field behaves like an
absent one. -/
def populate_patient_from_form_smoking (f : SmokingForm) : SmokingState :=
  if f.smoking_never then
    { smoking_current := false
      smoking_previous := false
      smoking_pack_years := some 0
      smoking_years := none
      smoking_cigarettes_per_day := none }
  else
    let pack_years :=
      match f.smoking_cigarettes_per_day, f.smoking_years with
      | some c, some y =>
        if c ≠ 0 ∧ y ≠ 0 then
          some (round2 ((c : ℚ) / 20 * y))
        else f.smoking_pack_years
      | _, _ => f.smoking_pack_years
    { smoking_current := f.smoking_current
      smoking_previous := f.smoking_previous
      smoking_pack_years := pack_years
      smoking_years := f.smoking_years
      smoking_cigarettes_per_day := f.smoking_cigarettes_per_day }

/-! ## `_compute_age_from_birthdate` (src/app.py:617-628) -/

/-- A calendar date as `datetime.date` stores it. -/
structure PyDate where
  year : ℕ
  month : ℕ
  day : ℕ
deriving DecidableEq, Repr

/-- Gregorian leap-year test, as `calendar`/`datetime` define it. -/
def isLeapYear (y : ℕ) : Bool := y % 4 = 0 && (y % 100 ≠ 0 || y % 400 = 0)

/-- Days in a month of a given year (Gregorian). -/
def daysInMonth (y m : ℕ) : ℕ :=
  if m = 2 then (if isLeapYear y then 29 else 28)
  else if m = 4 ∨ m = 6 ∨ m = 9 ∨ m = 11 then 30
  else 31

def isDigitChar (c : Char) : Bool := 48 ≤ c.toNat && c.toNat ≤ 57

def digitsToNat (cs : List Char) : ℕ :=
  cs.foldl (fun acc c => 10 * acc + (c.toNat - 48)) 0

/-- Split a character list at every occurrence of `sep` (Python
`str.split(sep)` for a one-character separator; empty parts are kept). -/
def splitOnCharAux (sep : Char) : List Char → List Char → List (List Char)
  | [], acc => [acc.reverse]
  | c :: rest, acc =>
    if c = sep then acc.reverse :: splitOnCharAux sep rest []
    else splitOnCharAux sep rest (c :: acc)

/-- Python `s.split(sep)` for a one-character separator. -/
def pySplit (sep : Char) (s : String) : List String :=
  (splitOnCharAux sep s.data []).map String.mk

/-- Model of `datetime.datetime.strptime(s, "%Y-%m-%d").date()`:
`%Y` matches exactly four digits, `%m` and `%d` one or two digits; the whole
string must be consumed; the `datetime` constructor then validates
`MINYEAR <= year`, `1 <= month <= 12` and `1 <= day <= days-in-month`,
raising `ValueError` (here: `none`) otherwise. -/
def strptime_Ymd (s : String) : Option PyDate :=
  match pySplit '-' s with
  | [ys, ms, ds] =>
    if ys.length = 4 && ys.data.all isDigitChar
        && (1 ≤ ms.length && ms.length ≤ 2) && ms.data.all isDigitChar
        && (1 ≤ ds.length && ds.length ≤ 2) && ds.data.all isDigitChar then
      let y := digitsToNat ys.data
      let m := digitsToNat ms.data
      let d := digitsToNat ds.data
      if 1 ≤ y && (1 ≤ m && m ≤ 12) && (1 ≤ d && d ≤ daysInMonth y m) then
        some ⟨y, m, d⟩
      else none
    else none
  | _ => none

/-- Python's lexicographic comparison of `(month, day)` tuples, as in
`(today.month, today.day) < (birth_date.month, birth_date.day)`. -/
def pairLt (a b : ℕ × ℕ) : Bool := a.1 < b.1 || (a.1 = b.1 && a.2 < b.2)

/-- Model of `_compute_age_from_birthdate(birth_date_str)` with `today`
made an explicit parameter (the source reads `datetime.date.today()`).
Mirrors the source: parse failure gives `None`, the month/day pair of
today is compared lexicographically with the birth date's, and a negative
result is replaced by `None` (`return age if age >= 0 else None`). -/
def _compute_age_from_birthdate (today : PyDate) (birth_date_str : Option String) :
    Option ℤ :=
  match birth_date_str with
  | none => none
  | some s =>
    if s = "" then none
    else
      match strptime_Ymd s with
      | none => none
      | some bd =>
        let age : ℤ := (today.year : ℤ) - (bd.year : ℤ)
        let age := if pairLt (today.month, today.day) (bd.month, bd.day) then age - 1 else age
        if 0 ≤ age then some age else none

/-- Total days in the first `k` months of year `y`. -/
def monthPrefixDays (y : ℕ) : ℕ → ℕ
  | 0 => 0
  | k + 1 => monthPrefixDays y k + daysInMonth y (k + 1)

/-- Day of the year of a month/day pair in a given year: days of the full
months before `m`, plus `d`.  Used to state the spec's "day-of-year
comparison" side of the age computation. -/
def dayOfYear (y m d : ℕ) : ℕ := monthPrefixDays y (m - 1) + d

/-! ## `_compute_eligibility` (src/app.py:2327-2346) -/

/-- The patient fields the screening-eligibility computation reads. -/
structure EligPatient where
  age : Option ℤ
  smoking_pack_years : Option ℚ
  smoking_current : Bool
  smoking_previous : Bool

/-- Display string of an optional value, `"---"` when absent (the
source's `x if x is not None else '---'`). -/
def optStr {α : Type} [ToString α] : Option α → String
  | some a => toString a
  | none => "---"

/-- Display string of an optional value, `"None"` when absent (Python's
`str(None)`; only reachable in branches the guard makes impossible). -/
def optStrNone {α : Type} [ToString α] : Option α → String
  | some a => toString a
  | none => "None"

/-- Model of `_compute_eligibility(p)`: the NCCN-style verdict (age ≥ 50,
current-or-previous smoker, pack-years ≥ 20) and the three reason lines. -/
def _compute_eligibility (p : EligPatient) : Bool × List String :=
  let is_smoker := p.smoking_current || p.smoking_previous
  let age_ok := match p.age with
    | some a => decide (50 ≤ a)
    | none => false
  let ipa_ok := match p.smoking_pack_years with
    | some q => decide (20 ≤ q)
    | none => false
  let r1 := if age_ok then "Edad " ++ optStrNone p.age ++ " años (≥50)"
            else "Edad " ++ optStr p.age ++ " (se requiere ≥50)"
  let r2 := if is_smoker then "Antecedente de tabaquismo (actual o previo)"
            else "Sin antecedente de tabaquismo"
  let r3 := if ipa_ok then "IPA " ++ optStrNone p.smoking_pack_years ++ " (≥20)"
            else "IPA " ++ optStr p.smoking_pack_years ++ " (se requiere ≥20)"
  (age_ok && is_smoker && ipa_ok, [r1, r2, r3])

/-! ## List-value encoding: `_serialize_list` / `_deserialize_list`
(src/app.py:527-545)

The column text is produced by `json.dumps(values, ensure_ascii=True)` and
read back by `json.loads`, falling back to comma-splitting.  The standard
library's JSON codec is modelled here by an executable encoder and
recursive-descent parser over `List Char`, mirroring `json/encoder.py`
(`py_encode_basestring_ascii`, default separators `", "`) and
`json/decoder.py` (strict mode).  One unrepresentable corner: a Python
`str` can hold lone UTF-16 surrogates (`json.loads` produces them from
unpaired `\uDC00`-style escapes) while a Lean `Char` cannot; the model's
parser rejects such escapes instead. -/

/-- A decoded JSON value (`json.loads` result).  `nonfinite` stands for the
IEEE specials `NaN`/`Infinity`/`-Infinity` that Python's decoder accepts. -/
inductive JsonVal where
  | str : String → JsonVal
  | num : ℚ → JsonVal
  | nonfinite : String → JsonVal
  | boolean : Bool → JsonVal
  | null : JsonVal
  | arr : List JsonVal → JsonVal
  | obj : List (String × JsonVal) → JsonVal
deriving Repr

/-- Lower-case hexadecimal digit, as `"\u%04x"` formatting produces. -/
def hexDigitChar (n : ℕ) : Char :=
  if n < 10 then Char.ofNat (48 + n) else Char.ofNat (87 + n)

/-- The four hex digits of `n < 0x10000`, most significant first. -/
def toHex4 (n : ℕ) : List Char :=
  [hexDigitChar (n / 4096 % 16), hexDigitChar (n / 256 % 16),
   hexDigitChar (n / 16 % 16), hexDigitChar (n % 16)]

/-- Value of one hexadecimal digit (either case), as the decoder reads it. -/
def hexVal (c : Char) : Option ℕ :=
  if 48 ≤ c.toNat && c.toNat ≤ 57 then some (c.toNat - 48)
  else if 97 ≤ c.toNat && c.toNat ≤ 102 then some (c.toNat - 87)
  else if 65 ≤ c.toNat && c.toNat ≤ 70 then some (c.toNat - 55)
  else none

def hex4 (a b c d : Char) : Option ℕ :=
  match hexVal a, hexVal b, hexVal c, hexVal d with
  | some w, some x, some y, some z => some (4096 * w + 256 * x + 16 * y + z)
  | _, _, _, _ => none

/-- `py_encode_basestring_ascii` on one character: backslash and quote get
two-character escapes, the five control shortcuts likewise, printable ASCII
passes through, and everything else becomes `\uXXXX` (a surrogate pair for
characters above the BMP). -/
def escapeChar (c : Char) : List Char :=
  if c = '\\' then ['\\', '\\']
  else if c = '"' then ['\\', '"']
  else if c = Char.ofNat 8 then ['\\', 'b']
  else if c = Char.ofNat 9 then ['\\', 't']
  else if c = Char.ofNat 10 then ['\\', 'n']
  else if c = Char.ofNat 12 then ['\\', 'f']
  else if c = Char.ofNat 13 then ['\\', 'r']
  else if 32 ≤ c.toNat && c.toNat ≤ 126 then [c]
  else if c.toNat < 65536 then '\\' :: 'u' :: toHex4 c.toNat
  else
    let v := c.toNat - 65536
    '\\' :: 'u' :: toHex4 (55296 + v / 1024) ++ '\\' :: 'u' :: toHex4 (56320 + v % 1024)

/-- The escaped body of a JSON string literal. -/
def escList (cs : List Char) : List Char := (cs.map escapeChar).flatten

/-- A JSON string literal: `'"' body '"'`. -/
def encodeString (s : String) : List Char := '"' :: escList s.data ++ ['"']

/-- Join pieces with `json.dumps`'s default item separator `", "`. -/
def joinSep : List (List Char) → List Char
  | [] => []
  | [x] => x
  | x :: y :: rest => x ++ ',' :: ' ' :: joinSep (y :: rest)

/-- Model of `_serialize_list(values)`: `None` for an empty list, drop falsy
(empty) items, `None` again if nothing is left, else the JSON array text. -/
def _serialize_list (values : List String) : Option String :=
  if values = [] then none
  else
    let cleaned := values.filter (fun v => v ≠ "")
    if cleaned = [] then none
    else some (String.mk ('[' :: joinSep (cleaned.map encodeString) ++ [']']))

/-- JSON whitespace (`json.decoder.WHITESPACE`): space, tab, newline, CR. -/
def jsonWs (c : Char) : Bool := c = ' ' || c = '\t' || c = '\n' || c = '\r'

def skipWs (cs : List Char) : List Char := cs.dropWhile jsonWs

/-- The two-character escape shortcuts the decoder accepts (`BACKSLASH`). -/
def escShortcut (e : Char) : Option Char :=
  if e = '"' then some '"'
  else if e = '\\' then some '\\'
  else if e = '/' then some '/'
  else if e = 'b' then some (Char.ofNat 8)
  else if e = 'f' then some (Char.ofNat 12)
  else if e = 'n' then some (Char.ofNat 10)
  else if e = 'r' then some (Char.ofNat 13)
  else if e = 't' then some (Char.ofNat 9)
  else none

/-- A `\uXXXX` escape after the `\u` (`py_scanstring`'s `_decode_uXXXX`
plus the surrogate-pair recombination): the decoded character and the
remainder.  (Unpaired surrogate escapes, which Python keeps as lone
surrogates in the `str`, have no `Char` counterpart and are rejected —
see the section comment.) -/
def parseUnicodeEscape : List Char → Option (Char × List Char)
  | a :: b :: c1 :: d :: rest3 =>
    match hex4 a b c1 d with
    | none => none
    | some n =>
      if 55296 ≤ n && n ≤ 56319 then
        match rest3 with
        | e2 :: u2 :: a2 :: b2 :: c2 :: d2 :: rest4 =>
          if e2 = '\\' && u2 = 'u' then
            match hex4 a2 b2 c2 d2 with
            | none => none
            | some n2 =>
              if 56320 ≤ n2 && n2 ≤ 57343 then
                some (Char.ofNat (65536 + 1024 * (n - 55296) + (n2 - 56320)), rest4)
              else none
          else none
        | _ => none
      else if 56320 ≤ n && n ≤ 57343 then none
      else some (Char.ofNat n, rest3)
  | _ => none

/-- One character of a string-literal body (not the closing quote): a
backslash escape, or a plain character, rejecting raw control characters
(strict mode). -/
def decodeOneChar : List Char → Option (Char × List Char)
  | [] => none
  | c :: rest =>
    if c = '\\' then
      match rest with
      | [] => none
      | e :: rest2 =>
        if e = 'u' then parseUnicodeEscape rest2
        else
          match escShortcut e with
          | some c2 => some (c2, rest2)
          | none => none
    else if c = '"' then none
    else if c.toNat < 32 then none
    else some (c, rest)

/-- `py_scanstring` after the opening quote, fuelled (each loop iteration
decodes one character, so `length + 1` fuel always suffices): the decoded
characters and the remainder after the closing quote. -/
def parseStringRestF : ℕ → List Char → Option (List Char × List Char)
  | 0, _ => none
  | fuel + 1, cs =>
    match cs with
    | [] => none
    | c :: rest =>
      if c = '"' then some ([], rest)
      else
        match decodeOneChar (c :: rest) with
        | some (c2, rest2) =>
          (parseStringRestF fuel rest2).map (fun p => (c2 :: p.1, p.2))
        | none => none

/-- `py_scanstring` after the opening quote. -/
def parseStringRest (cs : List Char) : Option (List Char × List Char) :=
  parseStringRestF (cs.length + 1) cs

/-- Longest leading run of decimal digits. -/
def spanDigits : List Char → List Char × List Char
  | [] => ([], [])
  | c :: rest =>
    if isDigitChar c then
      let (ds, r) := spanDigits rest
      (c :: ds, r)
    else ([], c :: rest)

/-- The integer part of `NUMBER_RE`: `0` alone, or a nonzero digit followed
by any digits. -/
def parseIntPart : List Char → Option (List Char × List Char)
  | [] => none
  | c :: rest =>
    if c = '0' then some (['0'], rest)
    else if isDigitChar c then
      let (ds, r) := spanDigits rest
      some (c :: ds, r)
    else none

/-- The optional fraction part `(\.\d+)?`: its digits (empty when absent). -/
def parseFracPart (cs : List Char) : List Char × List Char :=
  match cs with
  | c :: rest =>
    if c = '.' then
      match rest with
      | d :: _ =>
        if isDigitChar d then spanDigits rest
        else ([], cs)
      | [] => ([], cs)
    else ([], cs)
  | [] => ([], cs)

/-- The optional exponent part `([eE][-+]?\d+)?`: its signed value
(`0` when absent — the numeric value is all the scanner keeps). -/
def parseExpPart (cs : List Char) : ℤ × List Char :=
  match cs with
  | e :: rest =>
    if e = 'e' ∨ e = 'E' then
      match rest with
      | s :: rest2 =>
        if s = '+' then
          match rest2 with
          | d :: _ =>
            if isDigitChar d then
              let (ds, r) := spanDigits rest2
              ((digitsToNat ds : ℤ), r)
            else (0, cs)
          | [] => (0, cs)
        else if s = '-' then
          match rest2 with
          | d :: _ =>
            if isDigitChar d then
              let (ds, r) := spanDigits rest2
              (-(digitsToNat ds : ℤ), r)
            else (0, cs)
          | [] => (0, cs)
        else if isDigitChar s then
          let (ds, r) := spanDigits rest
          ((digitsToNat ds : ℤ), r)
        else (0, cs)
      | [] => (0, cs)
    else (0, cs)
  | [] => (0, cs)

/-- A JSON number per `NUMBER_RE`, as an exact rational. -/
def parseNumber (cs : List Char) : Option (ℚ × List Char) :=
  let sp : Bool × List Char :=
    match cs with
    | c :: rest => if c = '-' then (true, rest) else (false, cs)
    | [] => (false, cs)
  match parseIntPart sp.2 with
  | none => none
  | some (ip, cs2) =>
    let fp := parseFracPart cs2
    let ex := parseExpPart fp.2
    let mag : ℚ := (digitsToNat (ip ++ fp.1) : ℚ) * 10 ^ (ex.1 - (fp.1.length : ℤ))
    some (if sp.1 then -mag else mag, ex.2)

mutual

/-- One JSON value (`scan_once`), fuelled: strings, containers, the named
constants, then numbers and the nonfinite constants, as `json/decoder.py`
orders the checks. -/
def parseVal : ℕ → List Char → Option (JsonVal × List Char)
  | 0, _ => none
  | _ + 1, [] => none
  | fuel + 1, c :: rest =>
    if c = '"' then
      (parseStringRest rest).map (fun p => (JsonVal.str (String.mk p.1), p.2))
    else if c = '[' then
      match skipWs rest with
      | c2 :: rest2 =>
        if c2 = ']' then some (JsonVal.arr [], rest2)
        else (parseArrItems fuel (c2 :: rest2)).map (fun p => (JsonVal.arr p.1, p.2))
      | [] => none
    else if c = '{' then
      match skipWs rest with
      | c2 :: rest2 =>
        if c2 = '}' then some (JsonVal.obj [], rest2)
        else (parseObjItems fuel (c2 :: rest2)).map (fun p => (JsonVal.obj p.1, p.2))
      | [] => none
    else if c = 'n' then
      if "ull".data.isPrefixOf rest then some (JsonVal.null, rest.drop 3) else none
    else if c = 't' then
      if "rue".data.isPrefixOf rest then some (JsonVal.boolean true, rest.drop 3) else none
    else if c = 'f' then
      if "alse".data.isPrefixOf rest then some (JsonVal.boolean false, rest.drop 4) else none
    else
      match parseNumber (c :: rest) with
      | some (q, r) => some (JsonVal.num q, r)
      | none =>
        if c = 'N' && "aN".data.isPrefixOf rest then
          some (JsonVal.nonfinite "NaN", rest.drop 2)
        else if c = 'I' && "nfinity".data.isPrefixOf rest then
          some (JsonVal.nonfinite "Infinity", rest.drop 7)
        else if c = '-' && "Infinity".data.isPrefixOf rest then
          some (JsonVal.nonfinite "-Infinity", rest.drop 8)
        else none

/-- The elements of a non-empty JSON array after `[` (`JSONArray`'s loop). -/
def parseArrItems : ℕ → List Char → Option (List JsonVal × List Char)
  | 0, _ => none
  | fuel + 1, cs =>
    match parseVal fuel cs with
    | none => none
    | some (v, rest) =>
      match skipWs rest with
      | c :: rest2 =>
        if c = ']' then some ([v], rest2)
        else if c = ',' then
          match parseArrItems fuel (skipWs rest2) with
          | some (vs, rest3) => some (v :: vs, rest3)
          | none => none
        else none
      | [] => none

/-- The members of a non-empty JSON object after `{` (`JSONObject`'s loop). -/
def parseObjItems : ℕ → List Char → Option (List (String × JsonVal) × List Char)
  | 0, _ => none
  | fuel + 1, cs =>
    match cs with
    | c :: rest =>
      if c = '"' then
        match parseStringRest rest with
        | none => none
        | some (k, rest1) =>
          match skipWs rest1 with
          | c1 :: rest2 =>
            if c1 = ':' then
              match parseVal fuel (skipWs rest2) with
              | none => none
              | some (v, rest3) =>
                match skipWs rest3 with
                | c2 :: rest4 =>
                  if c2 = '}' then some ([(String.mk k, v)], rest4)
                  else if c2 = ',' then
                    match parseObjItems fuel (skipWs rest4) with
                    | some (kvs, rest5) => some ((String.mk k, v) :: kvs, rest5)
                    | none => none
                  else none
                | [] => none
            else none
          | [] => none
      else none
    | [] => none

end

/-- Model of `json.loads`: skip leading whitespace, read one value, and
require only whitespace to remain (`Extra data` otherwise). -/
def json_loads (s : String) : Option JsonVal :=
  let cs := skipWs s.data
  match parseVal (cs.length + 1) cs with
  | some (v, rest) => if skipWs rest = [] then some v else none
  | none => none

/-- Model of `_deserialize_list(value)`: falsy input gives `[]`; text that
parses as a JSON array gives its elements; anything else (parse failure or
a non-array value) is comma-split with empty items dropped. -/
def _deserialize_list (value : Option String) : List JsonVal :=
  match value with
  | none => []
  | some v =>
    if v = "" then []
    else
      match json_loads v with
      | some (JsonVal.arr xs) => xs
      | _ => ((pySplit ',' v).filter (fun s => s ≠ "")).map JsonVal.str

/-! ## Review workflow (src/app.py:946-1038, 2844-2857) -/

/-- Decimal digits of a natural number, most significant first (fuelled so
that concrete values reduce inside the kernel; `n + 1` fuel always
suffices). -/
def natDigitsAux : ℕ → ℕ → List Char
  | 0, _ => []
  | fuel + 1, n =>
    if n < 10 then [Char.ofNat (48 + n)]
    else natDigitsAux fuel (n / 10) ++ [Char.ofNat (48 + n % 10)]

/-- Decimal digits of a natural number, most significant first. -/
def natDigits (n : ℕ) : List Char := natDigitsAux (n + 1) n

/-- Python `str()` of an integer. -/
def pyStrInt (i : ℤ) : String :=
  if i < 0 then String.mk ('-' :: natDigits i.natAbs)
  else String.mk (natDigits i.natAbs)

/-- ASCII whitespace as Python `str.strip()` removes it (the Unicode
whitespace it also strips is not modelled). -/
def isPySpace (c : Char) : Bool :=
  c = ' ' || c = '\t' || c = '\n' || c = '\r' || c = Char.ofNat 11 || c = Char.ofNat 12

/-- Python `s.strip()` (ASCII whitespace only). -/
def pyStrip (s : String) : String :=
  String.mk (((s.data.dropWhile isPySpace).reverse.dropWhile isPySpace).reverse)

/-- Python `int()` of a string: optional surrounding whitespace, an optional
sign, then decimal digits.  (Underscore digit grouping, which `int()` also
accepts, is not modelled — the application only converts back strings it
produced with `str()`.) -/
def pyInt (s : String) : Option ℤ :=
  match (pyStrip s).data with
  | [] => none
  | c :: ds =>
    if c = '-' then
      if ds ≠ [] && ds.all isDigitChar then some (-(digitsToNat ds : ℤ)) else none
    else if c = '+' then
      if ds ≠ [] && ds.all isDigitChar then some (digitsToNat ds : ℤ) else none
    else
      if (c :: ds).all isDigitChar then some (digitsToNat (c :: ds) : ℤ) else none

/-- Python `int(x)` applied to a decoded JSON value, `none` when it raises:
strings are parsed, numbers truncated toward zero, booleans are `0`/`1`;
`None`, arrays and objects raise `TypeError`. -/
def pyIntOfJson : JsonVal → Option ℤ
  | JsonVal.str s => pyInt s
  | JsonVal.num q => some (if 0 ≤ q then ⌊q⌋ else -⌊-q⌋)
  | JsonVal.boolean b => some (if b then 1 else 0)
  | _ => none

/-- A `User` row as the recipient-email query sees it: id and a nullable
email column, in table order. -/
structure UserRow where
  id : ℤ
  email : Option String
deriving Repr, DecidableEq

/-- A `ReviewRequest` row (the fields the modelled operations touch). -/
structure ReviewRequestRow where
  recipients : String
  created_by_id : ℤ
  message : Option String
  status : String
  resolved_at : Option ℕ
deriving Repr, DecidableEq, DecidableEq, DecidableEq

/-- Model of `create_review_request(patient, created_by, recipient_ids,
message, ...)`: an empty recipient list returns `None` before anything is
persisted; otherwise the row is built with
`recipients=_serialize_list([str(rid) for rid in recipient_ids]) or "[]"`
and stored (the ORM default status is `"pending"`). -/
def create_review_request (created_by_id : ℤ) (recipient_ids : List ℤ)
    (message : Option String) : Option ReviewRequestRow :=
  if recipient_ids = [] then none
  else
    some
      { recipients :=
          (_serialize_list (recipient_ids.map pyStrInt)).getD "[]"
        created_by_id := created_by_id
        message :=
          match message with
          | none => none
          | some m => if pyStrip m = "" then none else some (pyStrip m)
        status := "pending"
        resolved_at := none }

/-- Model of `_get_review_recipient_emails(recipient_ids)`: with no ids an
empty list; otherwise the non-null, non-empty `email` of every user whose id
is in `recipient_ids`, in user-table order (the `User.id.in_(...)` query). -/
def _get_review_recipient_emails (users : List UserRow) (recipient_ids : List ℤ) :
    List String :=
  if recipient_ids = [] then []
  else
    (users.filter (fun u => recipient_ids.contains u.id)).filterMap
      (fun u => match u.email with
        | some e => if e = "" then none else some e
        | none => none)

/-- The recipient ids `notify_review_request` decodes from the row:
`[int(x) for x in _deserialize_list(rr.recipients)]`, with the whole list
replaced by `[]` when any conversion raises. -/
def decodeRecipientIds (recipients : String) : List ℤ :=
  match (_deserialize_list (some recipients)).mapM pyIntOfJson with
  | some ids => ids
  | none => []

/-- Model of `notify_review_request(rr)`: the list of addresses the email
send is attempted to (an empty list means the function returns without
sending).  The source builds it solely from the decoded recipient ids —
the creator's address is never added on this path. -/
def notify_review_request (users : List UserRow) (rr : ReviewRequestRow) :
    List String :=
  _get_review_recipient_emails users (decodeRecipientIds rr.recipients)

/-- Order-preserving deduplication (first occurrence wins). -/
def dedupKeepOrderAux (seen : List String) : List String → List String
  | [] => []
  | x :: xs =>
    if seen.contains x then dedupKeepOrderAux seen xs
    else x :: dedupKeepOrderAux (x :: seen) xs

def dedupKeepOrder (l : List String) : List String := dedupKeepOrderAux [] l

/-- Modelled from the spec (for comparison with the source): "attempts ...
email notification to all recipient addresses plus the creator's address
(deduplicated, order-preserving)".  The creator's address is looked up in
the user table like any recipient's. -/
def claimed_notification_emails (users : List UserRow) (rr : ReviewRequestRow) :
    List String :=
  let creatorEmails :=
    (users.filter (fun u => u.id = rr.created_by_id)).filterMap
      (fun u => match u.email with
        | some e => if e = "" then none else some e
        | none => none)
  dedupKeepOrder
    (_get_review_recipient_emails users (decodeRecipientIds rr.recipients)
      ++ creatorEmails)

/-- Python `str(uid) in recipients` on a decoded list: a string is compared
with `==` against each element and only equal strings match. -/
def jsonMemStr (s : String) : List JsonVal → Bool
  | [] => false
  | JsonVal.str t :: rest => s = t || jsonMemStr s rest
  | _ :: rest => jsonMemStr s rest

/-- Model of the `review_resolve` route body (after `get_or_404` and login):
a user whose id-string is not among the decoded recipients is rejected with
a flash and nothing changes; otherwise the status becomes `"resolved"` and
`resolved_at` is stamped with the current time.  Returns (allowed?, row). -/
def review_resolve (now : ℕ) (review : ReviewRequestRow) (current_user_id : ℤ) :
    Bool × ReviewRequestRow :=
  let recipients := _deserialize_list (some review.recipients)
  if !(jsonMemStr (pyStrInt current_user_id) recipients) then
    (false, review)
  else
    (true, { review with status := "resolved", resolved_at := some now })

/-! ## Control-reminder completion (src/app.py:2637-2652) -/

/-- A `ControlReminder` row (the fields `control_reminder_complete` touches). -/
structure ControlReminderRow where
  created_by_id : Option ℤ
  status : String
  completed : Bool
  completed_at : Option ℕ
deriving Repr, DecidableEq

/-- Model of the `control_reminder_complete` route body: rejected when the
reminder has a truthy creator id different from the current user
(`if cr.created_by_id and cr.created_by_id != current_user.id`); otherwise
status becomes `"done"`, the `completed` mirror `True` and `completed_at`
is stamped `utcnow()`.  Returns (allowed?, row). -/
def control_reminder_complete (now : ℕ) (cr : ControlReminderRow)
    (current_user_id : ℤ) : Bool × ControlReminderRow :=
  let creatorTruthy :=
    match cr.created_by_id with
    | some c => c ≠ 0
    | none => false
  if creatorTruthy && cr.created_by_id ≠ some current_user_id then
    (false, cr)
  else
    (true, { cr with status := "done", completed := true, completed_at := some now })

/-! ## Round-trip lemmas for the JSON list encoding -/

theorem hexVal_hexDigitChar : ∀ k < 16, hexVal (hexDigitChar k) = some k := by decide

theorem hex4_toHex4 (n : ℕ) (h : n < 65536) :
    hex4 (hexDigitChar (n / 4096 % 16)) (hexDigitChar (n / 256 % 16))
      (hexDigitChar (n / 16 % 16)) (hexDigitChar (n % 16)) = some n := by
  have h1 := hexVal_hexDigitChar (n / 4096 % 16) (Nat.mod_lt _ (by norm_num))
  have h2 := hexVal_hexDigitChar (n / 256 % 16) (Nat.mod_lt _ (by norm_num))
  have h3 := hexVal_hexDigitChar (n / 16 % 16) (Nat.mod_lt _ (by norm_num))
  have h4 := hexVal_hexDigitChar (n % 16) (Nat.mod_lt _ (by norm_num))
  simp only [hex4, h1, h2, h3, h4, Option.some.injEq]
  omega

/-- The validity invariant every `Char` carries, in `Nat` form. -/
theorem char_toNat_valid (c : Char) :
    c.toNat < 55296 ∨ (57343 < c.toNat ∧ c.toNat < 1114112) := by
  have h := c.valid
  unfold UInt32.isValidChar Nat.isValidChar at h
  exact h

theorem skipWs_cons_of_not_ws {c : Char} (h : jsonWs c = false) (r : List Char) :
    skipWs (c :: r) = c :: r := by
  simp [skipWs, List.dropWhile_cons, h]

theorem parseUnicodeEscape_toHex4 (n : ℕ) (r : List Char) (hlt : n < 65536)
    (hns : ¬ (55296 ≤ n ∧ n ≤ 56319)) (hnl : ¬ (56320 ≤ n ∧ n ≤ 57343)) :
    parseUnicodeEscape (toHex4 n ++ r) = some (Char.ofNat n, r) := by
  have hnsb : (55296 ≤ n && n ≤ 56319) = false := by
    rw [Bool.and_eq_false_iff]
    by_cases h1 : 55296 ≤ n
    · right; simp; omega
    · left; simp; omega
  have hnlb : (56320 ≤ n && n ≤ 57343) = false := by
    rw [Bool.and_eq_false_iff]
    by_cases h1 : 56320 ≤ n
    · right; simp; omega
    · left; simp; omega
  simp only [toHex4, List.cons_append, List.nil_append, parseUnicodeEscape,
    hex4_toHex4 n hlt, hnsb, hnlb, Bool.false_eq_true, if_false]

theorem parseUnicodeEscape_surrogatePair (n1 n2 : ℕ) (r : List Char)
    (h1a : 55296 ≤ n1) (h1b : n1 ≤ 56319) (h2a : 56320 ≤ n2) (h2b : n2 ≤ 57343) :
    parseUnicodeEscape (toHex4 n1 ++ ('\\' :: 'u' :: (toHex4 n2 ++ r))) =
      some (Char.ofNat (65536 + 1024 * (n1 - 55296) + (n2 - 56320)), r) := by
  have h1lt : n1 < 65536 := by omega
  have h2lt : n2 < 65536 := by omega
  have hhib : (55296 ≤ n1 && n1 ≤ 56319) = true := by
    simp only [Bool.and_eq_true, decide_eq_true_eq]
    omega
  have hlob : (56320 ≤ n2 && n2 ≤ 57343) = true := by
    simp only [Bool.and_eq_true, decide_eq_true_eq]
    omega
  simp only [toHex4, List.cons_append, List.nil_append, parseUnicodeEscape,
    hex4_toHex4 n1 h1lt, hex4_toHex4 n2 h2lt, hhib, hlob, if_true]
  simp

/-- Decoding one escaped character: the body decoder consumes exactly the
escape `escapeChar c` produces and yields `c` back. -/
theorem decodeOneChar_escapeChar (c : Char) (r : List Char) :
    decodeOneChar (escapeChar c ++ r) = some (c, r) := by
  by_cases hbs : c = '\\'
  · subst hbs; rfl
  by_cases hq : c = '"'
  · subst hq; rfl
  by_cases h8 : c = Char.ofNat 8
  · subst h8; rfl
  by_cases h9 : c = Char.ofNat 9
  · subst h9; rfl
  by_cases h10 : c = Char.ofNat 10
  · subst h10; rfl
  by_cases h12 : c = Char.ofNat 12
  · subst h12; rfl
  by_cases h13 : c = Char.ofNat 13
  · subst h13; rfl
  by_cases hprint : (32 ≤ c.toNat && c.toNat ≤ 126) = true
  · have hpn : 32 ≤ c.toNat ∧ c.toNat ≤ 126 := by simpa using hprint
    have hesc : escapeChar c = [c] := by
      simp [escapeChar, hbs, hq, h8, h9, h10, h12, h13, hprint]
    rw [hesc, List.singleton_append]
    have hctl : ¬ (c.toNat < 32) := by omega
    simp [decodeOneChar, hbs, hq, hctl]
  by_cases hbmp : c.toNat < 65536
  · have hesc : escapeChar c = '\\' :: 'u' :: toHex4 c.toNat := by
      simp [escapeChar, hbs, hq, h8, h9, h10, h12, h13, hprint, hbmp]
    rw [hesc]
    have hval := char_toNat_valid c
    have hns : ¬ (55296 ≤ c.toNat ∧ c.toNat ≤ 56319) := by omega
    have hnl : ¬ (56320 ≤ c.toNat ∧ c.toNat ≤ 57343) := by omega
    simp only [List.cons_append, decodeOneChar, if_true]
    rw [parseUnicodeEscape_toHex4 c.toNat r hbmp hns hnl, Char.ofNat_toNat]
  · have hval : 57343 < c.toNat ∧ c.toNat < 1114112 := by
      rcases char_toNat_valid c with hv | hv
      · omega
      · exact hv
    have hesc : escapeChar c = '\\' :: 'u' :: toHex4 (55296 + (c.toNat - 65536) / 1024)
        ++ '\\' :: 'u' :: toHex4 (56320 + (c.toNat - 65536) % 1024) := by
      simp [escapeChar, hbs, hq, h8, h9, h10, h12, h13, hprint, hbmp]
    rw [hesc]
    have hdiv : (c.toNat - 65536) / 1024 < 1024 := by omega
    have hmod : (c.toNat - 65536) % 1024 < 1024 :=
      Nat.mod_lt _ (by norm_num)
    simp only [List.cons_append, List.append_assoc, decodeOneChar, if_true]
    rw [parseUnicodeEscape_surrogatePair (55296 + (c.toNat - 65536) / 1024)
      (56320 + (c.toNat - 65536) % 1024) r (by omega) (by omega) (by omega) (by omega)]
    have hrecomb : 65536 + 1024 * (55296 + (c.toNat - 65536) / 1024 - 55296)
        + (56320 + (c.toNat - 65536) % 1024 - 56320) = c.toNat := by
      have := Nat.div_add_mod (c.toNat - 65536) 1024
      omega
    rw [hrecomb, Char.ofNat_toNat]

theorem escapeChar_head (c : Char) :
    ∃ d t, escapeChar c = d :: t ∧ d ≠ '"' := by
  by_cases hbs : c = '\\'
  · exact ⟨'\\', ['\\'], by simp [escapeChar, hbs], by decide⟩
  by_cases hq : c = '"'
  · exact ⟨'\\', ['"'], by simp [escapeChar, hbs, hq], by decide⟩
  by_cases h8 : c = Char.ofNat 8
  · exact ⟨'\\', ['b'], by simp [escapeChar, hbs, hq, h8], by decide⟩
  by_cases h9 : c = Char.ofNat 9
  · exact ⟨'\\', ['t'], by simp [escapeChar, hbs, hq, h8, h9], by decide⟩
  by_cases h10 : c = Char.ofNat 10
  · exact ⟨'\\', ['n'], by simp [escapeChar, hbs, hq, h8, h9, h10], by decide⟩
  by_cases h12 : c = Char.ofNat 12
  · exact ⟨'\\', ['f'], by simp [escapeChar, hbs, hq, h8, h9, h10, h12], by decide⟩
  by_cases h13 : c = Char.ofNat 13
  · exact ⟨'\\', ['r'], by simp [escapeChar, hbs, hq, h8, h9, h10, h12, h13], by decide⟩
  by_cases hprint : (32 ≤ c.toNat && c.toNat ≤ 126) = true
  · exact ⟨c, [], by simp [escapeChar, hbs, hq, h8, h9, h10, h12, h13, hprint], hq⟩
  by_cases hbmp : c.toNat < 65536
  · exact ⟨'\\', 'u' :: toHex4 c.toNat,
      by simp [escapeChar, hbs, hq, h8, h9, h10, h12, h13, hprint, hbmp], by decide⟩
  · exact ⟨'\\', 'u' :: toHex4 (55296 + (c.toNat - 65536) / 1024)
        ++ '\\' :: 'u' :: toHex4 (56320 + (c.toNat - 65536) % 1024),
      by simp [escapeChar, hbs, hq, h8, h9, h10, h12, h13, hprint, hbmp], by decide⟩

/-- One step of the fuelled string-body scan across one escaped character. -/
theorem parseStringRestF_escapeChar (f : ℕ) (c : Char) (r : List Char) :
    parseStringRestF (f + 1) (escapeChar c ++ r) =
      (parseStringRestF f r).map (fun p => (c :: p.1, p.2)) := by
  obtain ⟨d, t, hdt, hdq⟩ := escapeChar_head c
  have hdec : decodeOneChar (d :: (t ++ r)) = some (c, r) := by
    have := decodeOneChar_escapeChar c r
    rw [hdt] at this
    simpa using this
  rw [hdt, List.cons_append]
  simp [parseStringRestF, hdq, hdec]

theorem escapeChar_length_pos (c : Char) : 1 ≤ (escapeChar c).length := by
  obtain ⟨d, t, hdt, _⟩ := escapeChar_head c
  simp [hdt]

theorem escList_length_ge (cs : List Char) : cs.length ≤ (escList cs).length := by
  induction cs with
  | nil => simp [escList]
  | cons c cs ih =>
    have h1 := escapeChar_length_pos c
    have h2 : escList (c :: cs) = escapeChar c ++ escList cs := by simp [escList]
    rw [h2]
    simp only [List.length_append, List.length_cons]
    omega

/-- The fuelled string-body scan decodes an escaped body back to its
characters, given more fuel than characters. -/
theorem parseStringRestF_escList (cs : List Char) :
    ∀ (f : ℕ) (tail : List Char), cs.length + 1 ≤ f →
    parseStringRestF f (escList cs ++ '"' :: tail) = some (cs, tail) := by
  induction cs with
  | nil =>
    intro f tail hf
    obtain ⟨f2, rfl⟩ : ∃ f2, f = f2 + 1 := ⟨f - 1, by omega⟩
    simp [escList, parseStringRestF]
  | cons c cs ih =>
    intro f tail hf
    obtain ⟨f2, rfl⟩ : ∃ f2, f = f2 + 1 := ⟨f - 1, by omega⟩
    rw [show escList (c :: cs) ++ '"' :: tail = escapeChar c ++ (escList cs ++ '"' :: tail)
      from by simp [escList]]
    rw [parseStringRestF_escapeChar]
    rw [ih f2 tail (by simp only [List.length_cons] at hf; omega)]
    rfl

/-- Decoding the escaped body of a string literal recovers the characters. -/
theorem parseStringRest_escList (cs : List Char) (tail : List Char) :
    parseStringRest (escList cs ++ '"' :: tail) = some (cs, tail) := by
  unfold parseStringRest
  apply parseStringRestF_escList
  have h := escList_length_ge cs
  simp only [List.length_append, List.length_cons]
  omega

/-- Any fuel at least `1` lets `parseVal` read a serialized string literal. -/
theorem parseVal_encodeString (f : ℕ) (s : String) (tail : List Char) :
    parseVal (f + 1) (encodeString s ++ tail) = some (JsonVal.str s, tail) := by
  have h : encodeString s ++ tail = '"' :: (escList s.data ++ '"' :: tail) := by
    simp [encodeString]
  rw [h]
  simp [parseVal, parseStringRest_escList]

theorem encodeString_head (s : String) (r : List Char) :
    skipWs (encodeString s ++ r) = encodeString s ++ r := by
  have h : encodeString s ++ r = '"' :: (escList s.data ++ '"' :: r) := by
    simp [encodeString]
  rw [h]
  exact skipWs_cons_of_not_ws (by decide) _

theorem joinSep_enc_cons_head (x : String) (xs : List String) (r : List Char) :
    skipWs (joinSep ((x :: xs).map encodeString) ++ r) =
      joinSep ((x :: xs).map encodeString) ++ r := by
  cases xs with
  | nil =>
    simp only [List.map, joinSep]
    exact encodeString_head x r
  | cons y ys =>
    simp only [List.map, joinSep, List.append_assoc]
    exact encodeString_head x _

theorem joinSep_enc_length (l : List String) :
    l.length ≤ (joinSep (l.map encodeString)).length := by
  induction l with
  | nil => simp [joinSep]
  | cons x xs ih =>
    cases xs with
    | nil =>
      simp only [List.map, joinSep, List.length_cons, List.length_nil]
      have h : encodeString x = '"' :: (escList x.data ++ ['"']) := by
        simp [encodeString]
      rw [h]
      simp
    | cons y ys =>
      have hx : 1 ≤ (encodeString x).length := by
        have h : encodeString x = '"' :: (escList x.data ++ ['"']) := by
          simp [encodeString]
        simp [h]
      simp only [List.map, joinSep] at ih ⊢
      simp only [List.length_append, List.length_cons] at ih ⊢
      omega

theorem skipWs_space (r : List Char) : skipWs (' ' :: r) = skipWs r := by
  simp [skipWs, List.dropWhile_cons, jsonWs]

/-- One step of the array-items loop (definitional unfolding). -/
theorem parseArrItems_succ (f : ℕ) (cs : List Char) :
    parseArrItems (f + 1) cs =
      match parseVal f cs with
      | none => none
      | some (v, rest) =>
        match skipWs rest with
        | c :: rest2 =>
          if c = ']' then some ([v], rest2)
          else if c = ',' then
            match parseArrItems f (skipWs rest2) with
            | some (vs, rest3) => some (v :: vs, rest3)
            | none => none
          else none
        | [] => none := rfl

/-- `parseVal` on an opening bracket (definitional unfolding). -/
theorem parseVal_lbracket (f : ℕ) (rest : List Char) :
    parseVal (f + 1) ('[' :: rest) =
      match skipWs rest with
      | c2 :: rest2 =>
        if c2 = ']' then some (JsonVal.arr [], rest2)
        else (parseArrItems f (c2 :: rest2)).map (fun p => (JsonVal.arr p.1, p.2))
      | [] => none := rfl

/-- The array-items loop reads back a serialized list of strings, given
fuel at least one more than the number of items. -/
theorem parseArrItems_encoded (l : List String) :
    ∀ (fuel : ℕ) (tail : List Char), l ≠ [] → l.length + 1 ≤ fuel →
    parseArrItems fuel (joinSep (l.map encodeString) ++ ']' :: tail) =
      some (l.map JsonVal.str, tail) := by
  induction l with
  | nil =>
    intro fuel tail hne
    exact absurd rfl hne
  | cons x xs ih =>
    intro fuel tail _ hfuel
    cases xs with
    | nil =>
      have hfuel2 : 2 ≤ fuel := by simpa using hfuel
      obtain ⟨f, rfl⟩ : ∃ f, fuel = (f + 1) + 1 := ⟨fuel - 2, by omega⟩
      rw [parseArrItems_succ]
      rw [show joinSep ([x].map encodeString) ++ ']' :: tail
            = encodeString x ++ ']' :: tail from by simp [joinSep]]
      rw [parseVal_encodeString f x (']' :: tail)]
      simp [show skipWs (']' :: tail) = ']' :: tail from skipWs_cons_of_not_ws (by decide) _]
    | cons y ys =>
      have hfuel2 : ys.length + 3 ≤ fuel := by
        simp only [List.length_cons] at hfuel
        omega
      obtain ⟨f, rfl⟩ : ∃ f, fuel = (f + 1) + 1 := ⟨fuel - 2, by omega⟩
      rw [parseArrItems_succ]
      rw [show joinSep ((x :: y :: ys).map encodeString) ++ ']' :: tail
            = encodeString x
              ++ (',' :: ' ' :: (joinSep ((y :: ys).map encodeString) ++ ']' :: tail))
          from by simp [joinSep]]
      rw [parseVal_encodeString f x _]
      have hskip1 : skipWs
            (',' :: ' ' :: (joinSep ((y :: ys).map encodeString) ++ ']' :: tail))
          = ',' :: ' ' :: (joinSep ((y :: ys).map encodeString) ++ ']' :: tail) :=
        skipWs_cons_of_not_ws (by decide) _
      have hskip2 : skipWs (' ' :: (joinSep ((y :: ys).map encodeString) ++ ']' :: tail))
          = joinSep ((y :: ys).map encodeString) ++ ']' :: tail := by
        rw [skipWs_space, joinSep_enc_cons_head]
      have hih := ih (f + 1) tail (by simp) (by simp only [List.length_cons]; omega)
      simp only [List.map_cons] at hskip1 hskip2 hih
      simp [hskip1, hskip2, hih]

theorem joinSep_enc_exists_head (x : String) (xs : List String) :
    ∃ t, joinSep ((x :: xs).map encodeString) = '"' :: t := by
  cases xs with
  | nil =>
    refine ⟨escList x.data ++ ['"'], ?_⟩
    simp [joinSep, encodeString]
  | cons y ys =>
    refine ⟨escList x.data ++ ['"'] ++ (',' :: ' ' :: joinSep ((y :: ys).map encodeString)), ?_⟩
    simp [joinSep, encodeString]

/-- Reading a serialized non-empty string list as one JSON value. -/
theorem parseVal_array (f : ℕ) (tail : List Char) (x : String) (xs : List String)
    (hfuel : xs.length + 2 ≤ f) :
    parseVal (f + 1) ('[' :: (joinSep ((x :: xs).map encodeString) ++ ']' :: tail)) =
      some (JsonVal.arr ((x :: xs).map JsonVal.str), tail) := by
  obtain ⟨t, ht⟩ := joinSep_enc_exists_head x xs
  have hsplit : joinSep ((x :: xs).map encodeString) ++ ']' :: tail
      = '"' :: (t ++ ']' :: tail) := by
    rw [ht]
    simp
  rw [parseVal_lbracket, joinSep_enc_cons_head, hsplit]
  have hq : (('"' : Char) = ']') = False := by simp
  simp only [hq, if_false]
  rw [show ('"' : Char) :: (t ++ ']' :: tail)
        = joinSep ((x :: xs).map encodeString) ++ ']' :: tail from hsplit.symm]
  rw [parseArrItems_encoded (x :: xs) f tail (by simp)
    (by simp only [List.length_cons]; omega)]
  rfl

/-- `json.loads` of `json.dumps(l)` (for a non-empty list of strings)
yields the JSON array of exactly those strings. -/
theorem json_loads_serialized (l : List String) (hne : l ≠ []) :
    json_loads (String.mk ('[' :: joinSep (l.map encodeString) ++ [']'])) =
      some (JsonVal.arr (l.map JsonVal.str)) := by
  obtain ⟨x, xs, rfl⟩ : ∃ x xs, l = x :: xs := by
    cases l with
    | nil => exact absurd rfl hne
    | cons x xs => exact ⟨x, xs, rfl⟩
  have hdata : (String.mk ('[' :: joinSep ((x :: xs).map encodeString) ++ [']'])).data
      = '[' :: (joinSep ((x :: xs).map encodeString) ++ ']' :: ([] : List Char)) := by
    show '[' :: joinSep ((x :: xs).map encodeString) ++ [']'] = _
    simp
  have hskip : skipWs
        ('[' :: (joinSep ((x :: xs).map encodeString) ++ ']' :: ([] : List Char)))
      = '[' :: (joinSep ((x :: xs).map encodeString) ++ ']' :: ([] : List Char)) :=
    skipWs_cons_of_not_ws (by decide) _
  simp only [json_loads, hdata]
  simp only [List.cons_append]
  rw [hskip]
  rw [show ('[' :: (joinSep ((x :: xs).map encodeString) ++ ']' :: ([] : List Char))).length + 1
        = ((joinSep ((x :: xs).map encodeString)).length + 2) + 1 from by simp]
  rw [parseVal_array ((joinSep ((x :: xs).map encodeString)).length + 2) [] x xs (by
    have h1 := joinSep_enc_length (x :: xs)
    simp only [List.length_cons] at h1
    omega)]
  rfl


/-! ## Theorems for the spec's claims -/

/-- C2 (counterexample): the claim "null otherwise (when weight and height
are not both positive)" fails — a negative weight with a positive height is
not both-positive, yet the source computes and returns a (negative) BMI. -/
theorem C2_bmi_counterexample :
    _compute_bmi (some (-5)) (some 170) = some (-(173 / 100)) ∧
    ¬ (0 < (-5 : ℚ)) := by
  constructor
  · show _compute_bmi (some (-5)) (some 170) = some (-(173 / 100))
    norm_num [_compute_bmi, round2, pyRoundHalfEven]
  · norm_num

/-- C2 (amended): the computed BMI equals `round(weight/(height/100)^2, 2)`
whenever weight is nonzero and height is positive, and is null otherwise
(missing or zero weight, missing height, or height ≤ 0). -/
theorem C2_bmi_amended (w h : Option ℚ) :
    _compute_bmi w h =
      match w, h with
      | some w', some h' =>
        if w' ≠ 0 ∧ 0 < h' then some (round2 (w' / (h' / 100) ^ 2)) else none
      | _, _ => none := by
  rcases w with _ | w <;> rcases h with _ | h
  · rfl
  · rfl
  · rfl
  · show _compute_bmi (some w) (some h) = _
    by_cases hw : w = 0
    · simp [_compute_bmi, hw]
    by_cases hh : h = 0
    · simp [_compute_bmi, hh]
    by_cases hp : 0 < h
    · have h100 : ¬ (h / 100 ≤ 0) := by
        simp only [not_le]
        positivity
      simp [_compute_bmi, hw, hh, hp, h100]
    · have h100 : h / 100 ≤ 0 := by
        have : h ≤ 0 := le_of_not_lt hp
        have := div_nonpos_of_nonpos_of_nonneg this (by norm_num : (0:ℚ) ≤ 100)
        simpa using this
      simp [_compute_bmi, hw, hh, hp, h100]

/-- C1 (counterexample): with the never-smoked flag off, cigarettes/day and
years both submitted and *set* — but cigarettes/day set to `0` — the source
stores the explicitly submitted pack-years value (here `5`) instead of
`round((0/20)*2, 2) = 0`, because the guard uses Python truthiness. -/
theorem C1_pack_years_counterexample :
    populate_patient_from_form_smoking
      { smoking_never := false, smoking_current := true, smoking_previous := false,
        smoking_cigarettes_per_day := some 0, smoking_years := some 2,
        smoking_pack_years := some 5 } =
      { smoking_current := true, smoking_previous := false,
        smoking_pack_years := some 5, smoking_years := some 2,
        smoking_cigarettes_per_day := some 0 } ∧
    round2 ((0 : ℚ) / 20 * 2) = 0 ∧ (5 : ℚ) ≠ 0 := by
  refine ⟨?_, ?_, by norm_num⟩
  · simp [populate_patient_from_form_smoking]
  · norm_num [round2, pyRoundHalfEven]

/-- C1 (amended): with the never-smoked flag submitted, the smoking flags
become false, pack-years `0`, and years / cigarettes-per-day null.  With it
off, the stored pack-years is `round((cigs/20)*years, 2)` when both fields
are set *and nonzero*, and the explicitly submitted pack-years value
otherwise; the remaining fields are stored as parsed. -/
theorem C1_pack_years_amended (f : SmokingForm) :
    (f.smoking_never = true →
      populate_patient_from_form_smoking f =
        { smoking_current := false, smoking_previous := false,
          smoking_pack_years := some 0, smoking_years := none,
          smoking_cigarettes_per_day := none }) ∧
    (f.smoking_never = false →
      (∀ c y, f.smoking_cigarettes_per_day = some c → f.smoking_years = some y →
        c ≠ 0 → y ≠ 0 →
        (populate_patient_from_form_smoking f).smoking_pack_years =
          some (round2 ((c : ℚ) / 20 * y))) ∧
      ((f.smoking_cigarettes_per_day = none ∨ f.smoking_cigarettes_per_day = some 0 ∨
          f.smoking_years = none ∨ f.smoking_years = some 0) →
        (populate_patient_from_form_smoking f).smoking_pack_years =
          f.smoking_pack_years) ∧
      (populate_patient_from_form_smoking f).smoking_current = f.smoking_current ∧
      (populate_patient_from_form_smoking f).smoking_previous = f.smoking_previous ∧
      (populate_patient_from_form_smoking f).smoking_years = f.smoking_years ∧
      (populate_patient_from_form_smoking f).smoking_cigarettes_per_day =
        f.smoking_cigarettes_per_day) := by
  constructor
  · intro hn
    simp [populate_patient_from_form_smoking, hn]
  · intro hn
    refine ⟨?_, ?_, ?_, ?_, ?_, ?_⟩
    · intro c y hc hy hc0 hy0
      simp [populate_patient_from_form_smoking, hn, hc, hy, hc0, hy0]
    · intro hzero
      rcases hc : f.smoking_cigarettes_per_day with _ | c <;>
        rcases hy : f.smoking_years with _ | y
      · simp [populate_patient_from_form_smoking, hn, hc, hy]
      · simp [populate_patient_from_form_smoking, hn, hc, hy]
      · simp [populate_patient_from_form_smoking, hn, hc, hy]
      · have hcy : c = 0 ∨ y = 0 := by
          rcases hzero with hz | hz | hz | hz <;> simp_all
        rcases hcy with rfl | rfl <;>
          simp [populate_patient_from_form_smoking, hn, hc, hy]
    · simp [populate_patient_from_form_smoking, hn]
    · simp [populate_patient_from_form_smoking, hn]
    · simp [populate_patient_from_form_smoking, hn]
    · simp [populate_patient_from_form_smoking, hn]

/-- C4 (confirmed): the eligibility verdict is true exactly when age is
non-null and ≥ 50, the patient is a current or previous smoker, and
pack-years is non-null and ≥ 20; the reason list always has exactly three
entries; and the spec's two examples behave as stated. -/
theorem C4_eligibility (p : EligPatient) :
    ((_compute_eligibility p).1 = true ↔
      (∃ a, p.age = some a ∧ 50 ≤ a) ∧
      (p.smoking_current = true ∨ p.smoking_previous = true) ∧
      (∃ q, p.smoking_pack_years = some q ∧ 20 ≤ q)) ∧
    (_compute_eligibility p).2.length = 3 ∧
    (_compute_eligibility ⟨some 55, some 30, true, false⟩).1 = true ∧
    (_compute_eligibility ⟨some 45, some 30, true, false⟩).1 = false := by
  refine ⟨?_, rfl, ?_, ?_⟩
  · rcases p with ⟨a, q, sc, sp⟩
    rcases a with _ | a <;> rcases q with _ | q
    · simp [_compute_eligibility]
    · simp [_compute_eligibility]
    · simp [_compute_eligibility]
    · simp [_compute_eligibility]
      tauto
  · norm_num [_compute_eligibility]
  · norm_num [_compute_eligibility]

/-- C9 (confirmed): whenever `control_reminder_complete` accepts (the user
is authorized), the stored reminder has status `"done"`, the `completed`
mirror `true`, and a non-null completion timestamp. -/
theorem C9_reminder_complete (now : ℕ) (cr : ControlReminderRow) (uid : ℤ)
    (r : ControlReminderRow)
    (h : control_reminder_complete now cr uid = (true, r)) :
    r.status = "done" ∧ r.completed = true ∧ r.completed_at = some now := by
  unfold control_reminder_complete at h
  simp only [] at h
  split at h
  · exact absurd (congrArg Prod.fst h) (by simp)
  · have h2 := congrArg Prod.snd h
    simp only [] at h2
    subst h2
    simp

/-- C9 witness: the creator completes their own reminder. -/
theorem C9_reminder_complete_witness :
    ((⟨some 4, "done", true, some 7⟩ : ControlReminderRow).status = "done" ∧
      (⟨some 4, "done", true, some 7⟩ : ControlReminderRow).completed = true ∧
      (⟨some 4, "done", true, some 7⟩ : ControlReminderRow).completed_at = some 7) :=
  C9_reminder_complete 7 ⟨some 4, "pending", false, none⟩ 4
    ⟨some 4, "done", true, some 7⟩ (by decide)

/-- C8 (confirmed): a user who is neither among the decoded recipients nor
the creator cannot resolve a review request — the operation is rejected and
the row (status and `resolved_at` included) is returned unchanged.  (The
source in fact rejects every non-recipient, the creator included.) -/
theorem C8_review_resolve (now : ℕ) (review : ReviewRequestRow) (uid : ℤ)
    (hrec : jsonMemStr (pyStrInt uid) (_deserialize_list (some review.recipients)) =
      false)
    (_hcreator : uid ≠ review.created_by_id) :
    review_resolve now review uid = (false, review) := by
  unfold review_resolve
  simp [hrec]

/-- C8 witness: user 2, neither recipient (only user 1 is) nor creator
(user 3), is rejected and the row is unchanged. -/
theorem C8_review_resolve_witness :
    jsonMemStr (pyStrInt 2) (_deserialize_list (some "[\"1\"]")) = false ∧
    (2 : ℤ) ≠ 3 ∧
    review_resolve 5 ⟨"[\"1\"]", 3, none, "pending", none⟩ 2 =
      (false, ⟨"[\"1\"]", 3, none, "pending", none⟩) :=
  ⟨by decide, by decide,
    C8_review_resolve 5 ⟨"[\"1\"]", 3, none, "pending", none⟩ 2 (by decide) (by decide)⟩

/-- C10 (confirmed): a parseable birth date whose computed whole-year
difference from today is negative (a future birth date) yields a null age,
not a negative one. -/
theorem C10_future_birthdate (today : PyDate) (s : String) (bd : PyDate)
    (hp : strptime_Ymd s = some bd)
    (hneg : (today.year : ℤ) - (bd.year : ℤ) -
        (if pairLt (today.month, today.day) (bd.month, bd.day) then 1 else 0) < 0) :
    _compute_age_from_birthdate today (some s) = none := by
  have hs : s ≠ "" := by
    intro he
    subst he
    rw [show strptime_Ymd "" = none from by decide] at hp
    exact Option.noConfusion hp
  by_cases hpl : pairLt (today.month, today.day) (bd.month, bd.day) = true
  · rw [if_pos hpl] at hneg
    simp only [_compute_age_from_birthdate, if_neg hs, hp, hpl, if_true]
    rw [if_neg (by omega)]
  · rw [if_neg hpl] at hneg
    simp only [_compute_age_from_birthdate, if_neg hs, hp, hpl, if_false]
    rw [if_neg (by omega)]

/-- C10 witness: on 2026-10-12, the birth date 2030-01-01 parses but gives a
null age. -/
theorem C10_future_birthdate_witness :
    _compute_age_from_birthdate ⟨2026, 10, 12⟩ (some "2030-01-01") = none :=
  C10_future_birthdate ⟨2026, 10, 12⟩ "2030-01-01" ⟨2030, 1, 1⟩ (by decide) (by decide)

theorem serialize_nonempty (l : List String) (hne : l ≠ []) (hall : ∀ s ∈ l, s ≠ "") :
    _serialize_list l =
      some (String.mk ('[' :: joinSep (l.map encodeString) ++ [']'])) := by
  have hfil : l.filter (fun v => v ≠ "") = l := by
    rw [List.filter_eq_self]
    intro a ha
    simpa using hall a ha
  simp only [_serialize_list, if_neg hne, hfil]

theorem deserialize_serialized_text (l : List String) (hne : l ≠ []) :
    _deserialize_list (some (String.mk ('[' :: joinSep (l.map encodeString) ++ [']'])))
      = l.map JsonVal.str := by
  have hne2 : String.mk ('[' :: joinSep (l.map encodeString) ++ [']']) ≠ "" := by
    intro h
    exact List.cons_ne_nil _ _ (congrArg String.data h)
  simp only [_deserialize_list, if_neg hne2]
  rw [json_loads_serialized l hne]

/-- Serializing then deserializing a non-empty list of non-empty strings
gives back the original strings. -/
theorem deserialize_serialize (l : List String) (hne : l ≠ [])
    (hall : ∀ s ∈ l, s ≠ "") :
    _deserialize_list (_serialize_list l) = l.map JsonVal.str := by
  rw [serialize_nonempty l hne hall, deserialize_serialized_text l hne]

theorem natDigitsAux_ne_nil (f n : ℕ) : natDigitsAux (f + 1) n ≠ [] := by
  simp only [natDigitsAux]
  split
  · simp
  · simp

theorem pyStrInt_ne_empty (i : ℤ) : pyStrInt i ≠ "" := by
  unfold pyStrInt
  split
  · intro h
    exact List.cons_ne_nil _ _ (congrArg String.data h)
  · intro h
    exact natDigitsAux_ne_nil i.natAbs i.natAbs (congrArg String.data h)

/-- C3 (counterexample): the round trip fails for the non-empty sequence
`[""]` — the serializer drops falsy items and stores nothing, so decoding
gives `[]`; and legacy text `"a,,b"` deserializes to the comma-split parts
with empty items dropped, not the split parts themselves. -/
theorem C3_roundtrip_counterexample :
    _serialize_list [""] = none ∧
    _deserialize_list (_serialize_list [""]) = [] ∧
    ([] : List JsonVal) ≠ [JsonVal.str ""] ∧
    _deserialize_list (some "a,,b") = [JsonVal.str "a", JsonVal.str "b"] ∧
    pySplit ',' "a,,b" = ["a", "", "b"] := by
  refine ⟨rfl, rfl, by simp, rfl, by decide⟩

/-- C3 (amended): serializing then deserializing a non-empty sequence of
*non-empty* strings yields the original sequence; an absent or empty value
deserializes to the empty sequence; and text that is not valid JSON-array
text deserializes to its comma-split parts *with empty parts dropped*. -/
theorem C3_roundtrip_amended :
    (∀ l : List String, l ≠ [] → (∀ s ∈ l, s ≠ "") →
      _deserialize_list (_serialize_list l) = l.map JsonVal.str) ∧
    _deserialize_list none = [] ∧
    _deserialize_list (some "") = [] ∧
    (∀ v : String, v ≠ "" → (∀ xs, json_loads v ≠ some (JsonVal.arr xs)) →
      _deserialize_list (some v) =
        ((pySplit ',' v).filter (fun s => s ≠ "")).map JsonVal.str) := by
  refine ⟨deserialize_serialize, rfl, rfl, ?_⟩
  intro v hv hnar
  simp only [_deserialize_list, if_neg hv]

/-- C6 (confirmed): `create_review_request` with an empty recipient list
returns no record (and the model persists nothing); with at least one
recipient id it returns a row whose `recipients` text decodes back to
exactly the given ids (as their decimal strings, in order). -/
theorem C6_create_review_request :
    (∀ (created_by : ℤ) (m : Option String),
      create_review_request created_by [] m = none) ∧
    (∀ (created_by : ℤ) (ids : List ℤ) (m : Option String), ids ≠ [] →
      ∃ row, create_review_request created_by ids m = some row ∧
        _deserialize_list (some row.recipients) =
          ids.map (fun i => JsonVal.str (pyStrInt i))) := by
  constructor
  · intro cb m
    rfl
  · intro cb ids m hne
    have hmapne : ids.map pyStrInt ≠ [] := by simpa using hne
    have hall : ∀ s ∈ ids.map pyStrInt, s ≠ "" := by
      intro s hs
      obtain ⟨i, _, rfl⟩ := List.mem_map.mp hs
      exact pyStrInt_ne_empty i
    refine ⟨{ recipients := (_serialize_list (ids.map pyStrInt)).getD "[]",
              created_by_id := cb,
              message := match m with
                | none => none
                | some mm => if pyStrip mm = "" then none else some (pyStrip mm),
              status := "pending", resolved_at := none }, ?_, ?_⟩
    · simp only [create_review_request, if_neg hne]
    · have hser := serialize_nonempty (ids.map pyStrInt) hmapne hall
      simp only [hser, Option.getD_some]
      rw [deserialize_serialized_text _ hmapne, List.map_map]
      rfl

/-- C7 (counterexample): on creation the notification is attempted only to
the recipients' addresses — here user 1's `a@x` — while the claim's
recipient-plus-creator list would be `["a@x", "c@x"]` (creator user 2). -/
theorem C7_notify_counterexample :
    notify_review_request [⟨1, some "a@x"⟩, ⟨2, some "c@x"⟩]
        ⟨"[\"1\"]", 2, none, "pending", none⟩ = ["a@x"] ∧
    claimed_notification_emails [⟨1, some "a@x"⟩, ⟨2, some "c@x"⟩]
        ⟨"[\"1\"]", 2, none, "pending", none⟩ = ["a@x", "c@x"] ∧
    notify_review_request [⟨1, some "a@x"⟩, ⟨2, some "c@x"⟩]
        ⟨"[\"1\"]", 2, none, "pending", none⟩ ≠
      claimed_notification_emails [⟨1, some "a@x"⟩, ⟨2, some "c@x"⟩]
        ⟨"[\"1\"]", 2, none, "pending", none⟩ :=
  ⟨rfl, rfl, by decide⟩

/-- C7 (amended): the set of addresses the creation notification is
attempted to is exactly the non-empty email addresses of the users whose id
is among the decoded recipient ids, in user-table order; in particular
every attempted address belongs to a listed recipient (the creator's is not
added on this path). -/
theorem C7_notify_amended :
    (∀ (users : List UserRow) (rr : ReviewRequestRow),
      notify_review_request users rr =
        (users.filter (fun u => (decodeRecipientIds rr.recipients).contains u.id)).filterMap
          (fun u => match u.email with
            | some e => if e = "" then none else some e
            | none => none)) ∧
    (∀ (users : List UserRow) (rr : ReviewRequestRow) (e : String),
      e ∈ notify_review_request users rr →
      ∃ u, u ∈ users ∧ u.email = some e ∧
        (decodeRecipientIds rr.recipients).contains u.id = true) := by
  have hmain : ∀ (users : List UserRow) (rr : ReviewRequestRow),
      notify_review_request users rr =
        (users.filter (fun u => (decodeRecipientIds rr.recipients).contains u.id)).filterMap
          (fun u => match u.email with
            | some e => if e = "" then none else some e
            | none => none) := by
    intro users rr
    unfold notify_review_request _get_review_recipient_emails
    by_cases hids : decodeRecipientIds rr.recipients = []
    · rw [if_pos hids, hids]
      rw [show (users.filter (fun u => List.contains [] u.id)) = [] from by
        simp [List.filter_eq_nil_iff]]
      rfl
    · rw [if_neg hids]
  refine ⟨hmain, ?_⟩
  intro users rr e he
  rw [hmain] at he
  obtain ⟨u, hu, hmap⟩ := List.mem_filterMap.mp he
  obtain ⟨hu_mem, hu_id⟩ := List.mem_filter.mp hu
  refine ⟨u, hu_mem, ?_, hu_id⟩
  cases hmail : u.email with
  | none =>
    rw [hmail] at hmap
    simp at hmap
  | some e2 =>
    rw [hmail] at hmap
    simp only [] at hmap
    rw [if_neg (by rintro rfl; simp at hmap)] at hmap
    exact hmap

/-- C7 witness: applying the amended theorem's membership part at the
counterexample input exhibits the recipient owning the attempted address. -/
theorem C7_notify_witness :
    ∃ u, u ∈ [(⟨1, some "a@x"⟩ : UserRow), ⟨2, some "c@x"⟩] ∧
      u.email = some "a@x" ∧
      (decodeRecipientIds (⟨"[\"1\"]", 2, none, "pending", none⟩ :
        ReviewRequestRow).recipients).contains u.id = true :=
  C7_notify_amended.2 [⟨1, some "a@x"⟩, ⟨2, some "c@x"⟩]
    ⟨"[\"1\"]", 2, none, "pending", none⟩ "a@x" (by decide)

theorem monthPrefixDays_le (y : ℕ) {a b : ℕ} (h : a ≤ b) :
    monthPrefixDays y a ≤ monthPrefixDays y b := by
  induction b with
  | zero =>
    have : a = 0 := by omega
    subst this
    exact le_refl _
  | succ k ih =>
    rcases Nat.lt_or_ge a (k + 1) with hlt | hge
    · have h1 := ih (by omega)
      have h2 : monthPrefixDays y (k + 1) = monthPrefixDays y k + daysInMonth y (k + 1) :=
        rfl
      omega
    · have : a = k + 1 := by omega
      subst this
      exact le_refl _

theorem monthPrefixDays_succ_sub (y m : ℕ) (hm : 1 ≤ m) :
    monthPrefixDays y m = monthPrefixDays y (m - 1) + daysInMonth y m := by
  have hm1 : (m - 1) + 1 = m := by omega
  have hstep : monthPrefixDays y ((m - 1) + 1)
      = monthPrefixDays y (m - 1) + daysInMonth y ((m - 1) + 1) := rfl
  rw [hm1] at hstep
  exact hstep

theorem daysInMonth_le_other_succ (y1 y2 m : ℕ) :
    daysInMonth y1 m ≤ daysInMonth y2 m + 1 := by
  unfold daysInMonth
  split_ifs <;> omega

/-- The source's lexicographic `(month, day)` comparison agrees with the
spec's day-of-year comparison (both taken in today's year; the birth day
may exceed today's-year month length by at most one, covering Feb 29). -/
theorem pairLt_iff_dayOfYear (y m1 d1 m2 d2 : ℕ)
    (h1m : 1 ≤ m1) (h1d : 1 ≤ d1) (h1dm : d1 ≤ daysInMonth y m1)
    (h2m : 1 ≤ m2) (h2d : 1 ≤ d2) (h2dm : d2 ≤ daysInMonth y m2 + 1) :
    pairLt (m1, d1) (m2, d2) = true ↔ dayOfYear y m1 d1 < dayOfYear y m2 d2 := by
  constructor
  · intro hp
    simp only [pairLt, Bool.or_eq_true, Bool.and_eq_true, decide_eq_true_eq] at hp
    rcases hp with hlt | ⟨heq, hdlt⟩
    · have h1 : monthPrefixDays y (m1 - 1) + d1 ≤ monthPrefixDays y m1 := by
        have := monthPrefixDays_succ_sub y m1 h1m
        omega
      have h2 : monthPrefixDays y m1 ≤ monthPrefixDays y (m2 - 1) :=
        monthPrefixDays_le y (by omega)
      unfold dayOfYear
      omega
    · subst heq
      unfold dayOfYear
      omega
  · intro hd
    by_contra hp
    simp only [pairLt, Bool.or_eq_true, Bool.and_eq_true, decide_eq_true_eq, not_or,
      not_and] at hp
    obtain ⟨hnm, himp⟩ := hp
    rcases Nat.lt_or_ge m2 m1 with hlt | hge
    · have h1 : monthPrefixDays y (m2 - 1) + d2 ≤ monthPrefixDays y m2 + 1 := by
        have := monthPrefixDays_succ_sub y m2 h2m
        omega
      have h2 : monthPrefixDays y m2 ≤ monthPrefixDays y (m1 - 1) :=
        monthPrefixDays_le y (by omega)
      unfold dayOfYear at hd
      omega
    · have heq : m1 = m2 := by omega
      have hd2 := himp heq
      subst heq
      unfold dayOfYear at hd
      omega

theorem strptime_Ymd_bounds (s : String) (bd : PyDate)
    (h : strptime_Ymd s = some bd) :
    1 ≤ bd.year ∧ 1 ≤ bd.month ∧ bd.month ≤ 12 ∧ 1 ≤ bd.day ∧
      bd.day ≤ daysInMonth bd.year bd.month := by
  simp only [strptime_Ymd] at h
  split at h
  · split_ifs at h with h1 h2
    · obtain rfl : (⟨_, _, _⟩ : PyDate) = bd := Option.some_inj.mp h
      simp only [Bool.and_eq_true, decide_eq_true_eq] at h2
      exact ⟨h2.1.1, h2.1.2.1, h2.1.2.2, h2.2.1, h2.2.2⟩
  · exact Option.noConfusion h

/-- C5 (counterexample): a parseable but future birth date — on 2026-10-12,
`"2030-01-01"` parses, the whole-year difference (with the day-of-year
decrement) is `-4`, and the stored age is null rather than that value. -/
theorem C5_age_counterexample :
    strptime_Ymd "2030-01-01" = some ⟨2030, 1, 1⟩ ∧
    _compute_age_from_birthdate ⟨2026, 10, 12⟩ (some "2030-01-01") = none ∧
    (2026 : ℤ) - 2030 -
      (if dayOfYear 2026 10 12 < dayOfYear 2026 1 1 then 1 else 0) = -4 := by
  refine ⟨by decide, by decide, by decide⟩

/-- C5 (amended): for a real calendar date `today`, the derived age is null
on an unparseable birth-date string; on a parseable one it is the whole-year
difference, decremented by one when the birthday has not yet occurred this
year as decided by a day-of-year comparison — unless that value is negative
(future birth date), in which case it is null. -/
theorem C5_age_amended (today : PyDate) (s : String)
    (hm : 1 ≤ today.month) (hd : 1 ≤ today.day)
    (hdm : today.day ≤ daysInMonth today.year today.month) :
    (strptime_Ymd s = none → _compute_age_from_birthdate today (some s) = none) ∧
    (∀ bd, strptime_Ymd s = some bd →
      _compute_age_from_birthdate today (some s) =
        (if 0 ≤ (today.year : ℤ) - (bd.year : ℤ) -
            (if dayOfYear today.year today.month today.day <
                dayOfYear today.year bd.month bd.day then 1 else 0)
          then some ((today.year : ℤ) - (bd.year : ℤ) -
            (if dayOfYear today.year today.month today.day <
                dayOfYear today.year bd.month bd.day then 1 else 0))
          else none)) := by
  constructor
  · intro hp
    by_cases hs : s = ""
    · subst hs
      rfl
    · simp only [_compute_age_from_birthdate, if_neg hs, hp]
  · intro bd hp
    have hs : s ≠ "" := by
      intro he
      subst he
      rw [show strptime_Ymd "" = none from by decide] at hp
      exact Option.noConfusion hp
    obtain ⟨hby, hbm1, hbm2, hbd1, hbd2⟩ := strptime_Ymd_bounds s bd hp
    have hbd2' : bd.day ≤ daysInMonth today.year bd.month + 1 :=
      le_trans hbd2 (daysInMonth_le_other_succ bd.year today.year bd.month)
    have hiff := pairLt_iff_dayOfYear today.year today.month today.day bd.month bd.day
      hm hd hdm hbm1 hbd1 hbd2'
    simp only [_compute_age_from_birthdate, if_neg hs, hp]
    by_cases hpl : pairLt (today.month, today.day) (bd.month, bd.day) = true
    · have hdoy := hiff.mp hpl
      simp only [hpl, if_true, hdoy]
    · have hdoy : ¬ (dayOfYear today.year today.month today.day <
          dayOfYear today.year bd.month bd.day) := fun hcon => hpl (hiff.mpr hcon)
      simp only [hpl, if_false, hdoy, Bool.false_eq_true, sub_zero]

/-- C5 witness: today 2026-10-12, birth date 1990-10-13 (birthday not yet
reached) — the amended equation applied at a concrete input. -/
theorem C5_age_witness :
    _compute_age_from_birthdate ⟨2026, 10, 12⟩ (some "1990-10-13") =
      (if 0 ≤ (2026 : ℤ) - 1990 -
          (if dayOfYear 2026 10 12 < dayOfYear 2026 10 13 then 1 else 0)
        then some ((2026 : ℤ) - 1990 -
          (if dayOfYear 2026 10 12 < dayOfYear 2026 10 13 then 1 else 0))
        else none) :=
  (C5_age_amended ⟨2026, 10, 12⟩ "1990-10-13" (by decide) (by decide) (by decide)).2
    ⟨1990, 10, 13⟩ (by decide)

end ComiteTorax
